import Mathlib

set_option maxHeartbeats 4000000
set_option maxRecDepth 100000

/-
Verification development for the allergen-detection rule engine.

The Python modules `scripts/ocr_text_cleaner.py`,
`src/allergen_detection/strict_detector.py` and
`scripts/allergen_detection_pipeline.py` are shallowly embedded below:
text is `List Char`, Python floats are modelled as rationals, regular
expressions used by the code are modelled by small explicit token
matchers covering exactly the patterns the code compiles, and the
mutation of the shared FISH keyword list is modelled by threading a
Boolean state (whether the bare keyword "fish" is currently a member
of `ALLERGEN_KEYWORDS['FISH']['keywords']`).
-/

namespace AllergenSpec

/-- Text is modelled as a list of characters. -/
abbrev Str := List Char

def s2l (s : String) : Str := s.toList

/-- Python `\s` restricted to the whitespace characters that occur here. -/
def isWs (c : Char) : Bool := c = ' ' || c = '\t' || c = '\n' || c = '\r'

/-- Python regex word character `\w` (ASCII): letters, digits, underscore. -/
def isWordChar (c : Char) : Bool :=
  ('a' ≤ c && c ≤ 'z') || ('A' ≤ c && c ≤ 'Z') || ('0' ≤ c && c ≤ '9') || c = '_'

/-- The `str.lower()` on ASCII text. -/
def lowerL (t : Str) : Str := t.map Char.toLower

/-- If `pat` is a prefix of `t`, return the rest of `t`. -/
def dropLit : Str → Str → Option Str
  | [], t => some t
  | _ :: _, [] => none
  | c :: cs, d :: ds => if c = d then dropLit cs ds else none

/-- The literal `pat` occurs at the head of `t`. -/
def subAt (pat t : Str) : Bool := (dropLit pat t).isSome

/-- Python `pat in t` (substring containment). -/
def subIn (pat : Str) : Str → Bool
  | [] => pat = []
  | c :: cs => subAt pat (c :: cs) || subIn pat cs

/-- Python `t.find(pat)`: index of the first occurrence, if any. -/
def strFindAux (pat : Str) : Str → Nat → Option Nat
  | [], i => if pat = [] then some i else none
  | c :: cs, i => if subAt pat (c :: cs) then some i else strFindAux pat cs (i + 1)

def strFind (pat t : Str) : Option Nat := strFindAux pat t 0

/-- Regex `\b` immediately after a word character: next char absent or non-word. -/
def eowB : Str → Bool
  | [] => true
  | c :: _ => !isWordChar c

/-- Regex `\b` before a word character: previous char absent or non-word. -/
def bdryAt : Option Char → Bool
  | none => true
  | some c => !isWordChar c

/-- The literal `kw` matches at the head of `t` with a trailing `\b`. -/
def wbHere (kw t : Str) : Bool := subAt kw t && eowB (t.drop kw.length)

/-- The `re.search(r'\b' + re.escape(kw) + r'\b', t)`: start index of the first
word-boundary-delimited occurrence of `kw` (all keywords used by the code
start and end with word characters). -/
def wbFindAux (kw : Str) : Option Char → Str → Nat → Option Nat
  | prev, t, i =>
    if bdryAt prev && wbHere kw t then some i
    else
      match t with
      | [] => none
      | c :: cs => wbFindAux kw (some c) cs (i + 1)

def wbFind (kw t : Str) : Option Nat := wbFindAux kw none t 0

/-- The `re.sub(r'\b'+kw+r'\b', repl, t)`: global word-boundary replacement,
scanning left to right over the original text, non-overlapping matches. -/
def wbSubAllAux (kw repl : Str) : Nat → Option Char → Str → Str
  | 0, _, t => t
  | fuel + 1, prev, t =>
    if bdryAt prev && wbHere kw t then
      repl ++ wbSubAllAux kw repl fuel kw.getLast? (t.drop kw.length)
    else
      match t with
      | [] => []
      | c :: cs => c :: wbSubAllAux kw repl fuel (some c) cs

def wbSubAll (kw repl t : Str) : Str :=
  if kw = [] then t else wbSubAllAux kw repl t.length none t

/-- The `str.strip()`. -/
def stripWs (t : Str) : Str :=
  ((t.dropWhile isWs).reverse.dropWhile isWs).reverse

/-- The `re.sub(r'\s+', ' ', t)`: collapse every whitespace run to one space. -/
def collapseWs (t : Str) : Str :=
  (t.foldl
    (fun (acc : Str × Bool) c =>
      if isWs c then (if acc.2 then acc else (' ' :: acc.1, true))
      else (c :: acc.1, false))
    ([], false)).1.reverse

/-- The `str.split()`: whitespace-delimited tokens, empties discarded. -/
def splitWsF (c : Char) (acc : List Str × Str) : List Str × Str :=
  if isWs c then (if acc.2 = [] then acc else (acc.2 :: acc.1, [])) else (acc.1, c :: acc.2)

def splitWs (t : Str) : List Str :=
  let r := t.foldr splitWsF ([], [])
  if r.2 = [] then r.1 else r.2 :: r.1

/-- The `' '.join(ws)`. -/
def joinSp : List Str → Str
  | [] => []
  | [w] => w
  | w :: ws => w ++ ' ' :: joinSp ws

/-- Tokens of the small regular expressions compiled by the code.  The
matcher is greedy without backtracking, which agrees with Python's
semantics on every pattern used here (no pattern has a character class
that overlaps the literal that follows it). -/
inductive RTok where
  | lit : Str → RTok
  | opt : Char → RTok
  | many : (Char → Bool) → RTok
  | more : (Char → Bool) → RTok
  | one : (Char → Bool) → RTok
  | eow : RTok
  | anyStar : RTok

/-- Can the token sequence match some prefix of `t`? (`anyStar` is `.*`.) -/
def matchToks : List RTok → Str → Bool
  | [], _ => true
  | RTok.lit l :: r, t =>
    match dropLit l t with
    | some t2 => matchToks r t2
    | none => false
  | RTok.opt c :: r, t =>
    match t with
    | d :: ds => if d = c then matchToks r ds else matchToks r (d :: ds)
    | [] => matchToks r []
  | RTok.many p :: r, t => matchToks r (t.dropWhile p)
  | RTok.more p :: r, t =>
    match t with
    | d :: ds => if p d then matchToks r (ds.dropWhile p) else false
    | [] => false
  | RTok.one p :: r, t =>
    match t with
    | d :: ds => if p d then matchToks r ds else false
    | [] => false
  | RTok.eow :: r, t => eowB t && matchToks r t
  | RTok.anyStar :: r, t => (List.range (t.length + 1)).any (fun k => matchToks r (t.drop k))

/-- Length of the (greedy) match of the token sequence at the head of `t`,
for the patterns used in substitutions (none of them contains `.*`). -/
def matchLen : List RTok → Str → Option Nat
  | [], _ => some 0
  | RTok.lit l :: r, t =>
    match dropLit l t with
    | some t2 => (matchLen r t2).map (l.length + ·)
    | none => none
  | RTok.opt c :: r, t =>
    match t with
    | d :: ds => if d = c then (matchLen r ds).map (1 + ·) else matchLen r (d :: ds)
    | [] => matchLen r []
  | RTok.many p :: r, t =>
    (matchLen r (t.dropWhile p)).map ((t.takeWhile p).length + ·)
  | RTok.more p :: r, t =>
    match t with
    | d :: ds =>
      if p d then (matchLen r (ds.dropWhile p)).map (1 + (ds.takeWhile p).length + ·)
      else none
    | [] => none
  | RTok.one p :: r, t =>
    match t with
    | d :: ds => if p d then (matchLen r ds).map (1 + ·) else none
    | [] => none
  | RTok.eow :: r, t => if eowB t then matchLen r t else none
  | RTok.anyStar :: _, _ => none

/-- The `re.search` over an alternation of patterns that all begin with `\b`
before a word character: the start index of the leftmost match. -/
def patSearchAux (alts : List (List RTok)) : Option Char → Str → Nat → Option Nat
  | prev, t, i =>
    if bdryAt prev && alts.any (fun a => matchToks a t) then some i
    else
      match t with
      | [] => none
      | c :: cs => patSearchAux alts (some c) cs (i + 1)

def patSearch (alts : List (List RTok)) (t : Str) : Option Nat := patSearchAux alts none t 0

/-- The `re.search` over patterns with no leading `\b` (any start position). -/
def patSearchNBAux (alts : List (List RTok)) : Str → Bool
  | [] => alts.any (fun a => matchToks a [])
  | c :: cs => alts.any (fun a => matchToks a (c :: cs)) || patSearchNBAux alts cs

def patSearchNB (alts : List (List RTok)) (t : Str) : Bool := patSearchNBAux alts t

/-- The `re.sub(pattern, repl, t)` for the phrase patterns: repeatedly replace
the leftmost match and continue after it (no pattern matches the empty
string, the `k = 0` guard is only defensive). -/
def subAllAux (toks : List RTok) (repl : Str) : Nat → Str → Str
  | 0, t => t
  | fuel + 1, t =>
    match matchLen toks t with
    | some k =>
      if k = 0 then
        match t with
        | [] => []
        | c :: cs => c :: subAllAux toks repl fuel cs
      else repl ++ subAllAux toks repl fuel (t.drop k)
    | none =>
      match t with
      | [] => []
      | c :: cs => c :: subAllAux toks repl fuel cs

def subAll (toks : List RTok) (repl : Str) (t : Str) : Str := subAllAux toks repl t.length t

/-! ### difflib.SequenceMatcher

`difflib.SequenceMatcher(None, a, b).ratio()` with no junk (every string
compared here is far below the autojunk threshold of 200 characters):
recursively sum the lengths of the longest matching blocks, where ties are
broken towards the earliest start in `a`, then the earliest start in `b`. -/

def comPre : Str → Str → Nat
  | a :: as, b :: bs => if a = b then comPre as bs + 1 else 0
  | _, _ => 0

def matchLenAt (a b : Str) (i j : Nat) : Nat := comPre (a.drop i) (b.drop j)

/-- The `find_longest_match` over the whole strings: `(i, j, k)` maximising `k`,
ties towards smallest `i`, then smallest `j`. -/
def findLM (a b : Str) : Nat × Nat × Nat :=
  (List.range a.length).foldl
    (fun acc i =>
      (List.range b.length).foldl
        (fun acc2 j =>
          let k := matchLenAt a b i j
          if k > acc2.2.2 then (i, j, k) else acc2)
        acc)
    (0, 0, 0)

/-- Total number of matched characters: recursive longest-block matching,
with enough fuel (each level removes at least one character). -/
def rMatch : Nat → Str → Str → Nat
  | 0, _, _ => 0
  | fuel + 1, a, b =>
    let m := findLM a b
    if m.2.2 = 0 then 0
    else
      rMatch fuel (a.take m.1) (b.take m.2.1) + m.2.2 +
        rMatch fuel (a.drop (m.1 + m.2.2)) (b.drop (m.2.1 + m.2.2))

/-- Embedding of a natural number into `ℚ` by a kernel-computable route. -/
def nq (n : ℕ) : ℚ := mkRat (Int.ofNat n) 1

/-- The `SequenceMatcher(None, a, b).ratio() = 2 * M / (len(a) + len(b))`. -/
def smScore (a b : Str) : ℚ :=
  if a.length + b.length = 0 then 1
  else mkRat (Int.ofNat (2 * rMatch (a.length + b.length) a b)) (a.length + b.length)

/-! ### scripts/ocr_text_cleaner.py -/

/-- Characters of the class `[:\-]` used by the phrase patterns. -/
def isColonDash (c : Char) : Bool := c = ':' || c = '-'

/-- The `ALLERGEN_PHRASE_PATTERNS` (in order), each an `re.sub` pattern with its
replacement. -/
def phrasePatterns : List (List RTok × Str) :=
  [ ([RTok.lit (s2l "contain"), RTok.opt 's', RTok.many isWs, RTok.many isColonDash,
      RTok.many isWs], s2l "contains "),
    ([RTok.lit (s2l "may"), RTok.more isWs, RTok.lit (s2l "contain"), RTok.more isWs,
      RTok.lit (s2l "trace")], s2l "may contain trace"),
    ([RTok.lit (s2l "may"), RTok.more isWs, RTok.lit (s2l "contain"), RTok.more isWs],
      s2l "may contain "),
    ([RTok.lit (s2l "allergy"), RTok.more isWs, RTok.lit (s2l "advice"),
      RTok.many isColonDash, RTok.many isWs], s2l "contains "),
    ([RTok.lit (s2l "allergen"), RTok.opt 's', RTok.more isWs, RTok.lit (s2l "info"),
      RTok.many isColonDash, RTok.many isWs], s2l "contains "),
    ([RTok.lit (s2l "ingredient"), RTok.opt 's', RTok.many isColonDash, RTok.many isWs],
      s2l "ingredients: "),
    ([RTok.more isWs, RTok.lit (s2l "and"), RTok.more isWs], s2l ", "),
    ([RTok.lit (s2l ","), RTok.many isWs, RTok.lit (s2l ",")], s2l ",") ]

/-- The `ALLERGEN_OCR_FIXES`, in dictionary (insertion) order. -/
def allergenFixes : List (Str × Str) :=
  [ (s2l "peanats", s2l "peanut"), (s2l "peanuts", s2l "peanut"),
    (s2l "peatat", s2l "peanut"), (s2l "peanu", s2l "peanut"),
    (s2l "peanut skin-on", s2l "peanut"), (s2l "peanut skin on", s2l "peanut"),
    (s2l "groundnut", s2l "peanut"), (s2l "arachis", s2l "peanut"),
    (s2l "nuts", s2l "nut"), (s2l "almond", s2l "almond"),
    (s2l "hazelnut", s2l "hazelnut"), (s2l "walnut", s2l "walnut"),
    (s2l "walnuts", s2l "walnut"), (s2l "walnt", s2l "walnut"),
    (s2l "cashew", s2l "cashew"), (s2l "cashews", s2l "cashew"),
    (s2l "pistachio", s2l "pistachio"), (s2l "pecan", s2l "pecan"),
    (s2l "brazil nut", s2l "brazil nut"), (s2l "brazil nuts", s2l "brazil nut"),
    (s2l "brazli", s2l "brazil nut"), (s2l "brazi", s2l "brazil nut"),
    (s2l "macadamia", s2l "macadamia"), (s2l "coconut", s2l "coconut"),
    (s2l "muts", s2l "nuts"), (s2l "nut", s2l "nut"),
    (s2l "mk", s2l "milk"), (s2l "milk product", s2l "milk"),
    (s2l "dairy", s2l "milk"), (s2l "lactose", s2l "milk"),
    (s2l "casein", s2l "milk"), (s2l "whey", s2l "milk"),
    (s2l "butter", s2l "butter"), (s2l "cheese", s2l "cheese"),
    (s2l "yogurt", s2l "yogurt"),
    (s2l "cereak", s2l "cereal"), (s2l "gltn", s2l "gluten"),
    (s2l "glten", s2l "gluten"), (s2l "wheat", s2l "wheat"),
    (s2l "barley", s2l "barley"), (s2l "rye", s2l "rye"),
    (s2l "gluten", s2l "gluten"), (s2l "flour", s2l "flour"),
    (s2l "bread", s2l "bread"), (s2l "pasta", s2l "pasta"),
    (s2l "noodle", s2l "noodle"), (s2l "oat", s2l "oat"),
    (s2l "sesame", s2l "sesame"), (s2l "sesem", s2l "sesame"),
    (s2l "seseme", s2l "sesame"), (s2l "tahini", s2l "tahini"),
    (s2l "hummu", s2l "hummus"),
    (s2l "soy", s2l "soy"), (s2l "soya", s2l "soy"), (s2l "soybean", s2l "soy"),
    (s2l "fish", s2l "fish"), (s2l "anchovy", s2l "anchovy"),
    (s2l "salmon", s2l "salmon"), (s2l "tuna", s2l "tuna"), (s2l "cod", s2l "cod"),
    (s2l "shellfish", s2l "shellfish"), (s2l "shrimp", s2l "shrimp"),
    (s2l "prawn", s2l "prawn"), (s2l "crab", s2l "crab"),
    (s2l "lobster", s2l "lobster"), (s2l "clam", s2l "clam"),
    (s2l "oyster", s2l "oyster"), (s2l "mussel", s2l "mussel"),
    (s2l "scallop", s2l "scallop"),
    (s2l "egg", s2l "egg"), (s2l "albumen", s2l "albumen"),
    (s2l "mayonnaise", s2l "mayonnaise"),
    (s2l "mustard", s2l "mustard"), (s2l "dijon", s2l "dijon"),
    (s2l "sulphite", s2l "sulphite"), (s2l "sulfite", s2l "sulphite"),
    (s2l "so2", s2l "sulphite"), (s2l "preservative", s2l "preservative"),
    (s2l "celery", s2l "celery"), (s2l "celeriac", s2l "celery"),
    (s2l "lupin", s2l "lupin") ]

/-- The exclusion list inside `fuzzy_match_allergen`. -/
def fuzzyExclusions : List Str :=
  [ s2l "cream", s2l "cereal", s2l "cream milk", s2l "organic", s2l "ingredients",
    s2l "contains", s2l "serving", s2l "energy", s2l "protein", s2l "total",
    s2l "sugar" ]

/-- The canonical allergen term list inside `fuzzy_match_allergen`, in order. -/
def fuzzyTerms : List Str :=
  [ s2l "peanut", s2l "tree nut", s2l "milk", s2l "egg", s2l "fish",
    s2l "shellfish", s2l "gluten", s2l "wheat", s2l "cereal", s2l "sesame",
    s2l "soy", s2l "sulphite", s2l "mustard", s2l "lupin",
    s2l "walnut", s2l "almond", s2l "cashew", s2l "hazelnut", s2l "pecan",
    s2l "pistachio", s2l "macadamia", s2l "brazil nut", s2l "coconut" ]

/-- One step of the best-match fold: strictly better similarity wins, so the
first term attaining the maximum is kept (iteration order of the source). -/
def fuzzyStep (w : Str) (acc : ℚ × Option Str) (t : Str) : ℚ × Option Str :=
  if smScore w t > acc.1 then (smScore w t, some t) else acc

/-- The `OCRTextCleaner.fuzzy_match_allergen(word, threshold=0.65)`. -/
def fuzzyMatchAllergen (w : Str) : Str :=
  let wl := lowerL w
  if fuzzyExclusions.contains wl then w
  else
    match (fuzzyTerms.foldl (fuzzyStep wl) (13 / 20, none)).2 with
    | some b => b
    | none => w

/-- Step 4 of `OCRTextCleaner.clean`: fuzzy-correct a single token exactly
when it has length 4–8 and contains no digit. -/
def cleanToken (w : Str) : Str :=
  if 4 ≤ w.length && w.length ≤ 8 && !(w.any Char.isDigit) then fuzzyMatchAllergen w
  else w

/-- The character class kept by step 6 of `clean`: `[a-z0-9\s\-.,:]`. -/
def keepChar (c : Char) : Bool :=
  ('a' ≤ c && c ≤ 'z') || ('0' ≤ c && c ≤ '9') || isWs c ||
    c = '-' || c = '.' || c = ',' || c = ':'

/-- The `OCRTextCleaner.clean`: lowercase, phrase rewrites, word-boundary
allergen fixes, per-token fuzzy correction, whitespace collapse and strip,
artifact character filter. -/
def clean (t : Str) : Str :=
  if t = [] then []
  else
    (stripWs (collapseWs (joinSp ((splitWs
      (allergenFixes.foldl (fun s pr => wbSubAll pr.1 pr.2 s)
        (phrasePatterns.foldl (fun s pr => subAll pr.1 pr.2 s) (lowerL t)))).map
      cleanToken)))).filter keepChar

/-! ### src/allergen_detection/strict_detector.py -/

/-- The `AllergenCategory`. -/
inductive ACat where
  | contains
  | mayContain
  | notDetected
deriving DecidableEq, Repr

/-- The `DetectedAllergen`. -/
structure Finding where
  name : String
  cat : ACat
  evidence : Str
  confidence : ℚ
  matchedKw : Str
deriving DecidableEq, Repr

/-- One entry of `ALLERGEN_KEYWORDS`. -/
structure AClass where
  name : String
  keywords : List Str
  products : List Str
  exclusions : List Str

/-- The `ALLERGEN_KEYWORDS`, in dictionary order.  The bare keyword "fish" is
not in the FISH entry: the code appends and removes it at run time, which
is modelled by the Boolean detector state below. -/
def allergenClasses : List AClass :=
  [ ⟨"PEANUT",
      [s2l "peanut", s2l "peanuts", s2l "groundnut", s2l "groundnuts", s2l "arachis"],
      [s2l "peanut oil", s2l "peanut butter", s2l "peanut paste", s2l "peanut flour"],
      []⟩,
    ⟨"TREE_NUT",
      [s2l "almond", s2l "almonds", s2l "walnut", s2l "walnuts", s2l "hazelnut",
       s2l "hazelnuts", s2l "cashew", s2l "cashews", s2l "pistachio", s2l "pistachios",
       s2l "pecan", s2l "pecans", s2l "brazil nut", s2l "brazil nuts", s2l "macadamia",
       s2l "macadamias", s2l "chestnut", s2l "chestnuts", s2l "pine nut", s2l "pine nuts"],
      [s2l "nut butter", s2l "nut oil", s2l "nut paste", s2l "tree nut", s2l "tree nuts"],
      []⟩,
    ⟨"MILK",
      [s2l "milk", s2l "lactose", s2l "casein", s2l "whey", s2l "butter", s2l "cheese",
       s2l "cream", s2l "yogurt", s2l "yoghurt", s2l "ghee", s2l "milkfat", s2l "dairy"],
      [s2l "milk powder", s2l "milk solids", s2l "milk fat", s2l "dairy product",
       s2l "dairy products", s2l "whey powder", s2l "whey protein"],
      []⟩,
    ⟨"EGG",
      [s2l "egg", s2l "eggs", s2l "albumen", s2l "ovalbumin", s2l "albumin",
       s2l "lysozyme", s2l "ovomucoid"],
      [s2l "egg powder", s2l "egg white", s2l "egg yolk", s2l "egg protein"],
      []⟩,
    ⟨"GLUTEN",
      [s2l "gluten", s2l "wheat", s2l "barley", s2l "rye", s2l "spelt", s2l "kamut"],
      [s2l "wheat flour", s2l "wheat protein", s2l "wheat starch", s2l "rye flour",
       s2l "barley malt"],
      []⟩,
    ⟨"SOY",
      [s2l "soy", s2l "soya", s2l "soybean", s2l "soybeans", s2l "tofu", s2l "tempeh",
       s2l "edamame"],
      [s2l "soy sauce", s2l "soy lecithin", s2l "soy flour", s2l "soya oil",
       s2l "soy protein", s2l "soya protein"],
      []⟩,
    ⟨"FISH",
      [s2l "anchovy", s2l "anchovies", s2l "cod", s2l "salmon", s2l "tuna", s2l "trout",
       s2l "bass", s2l "herring", s2l "sardine", s2l "sardines", s2l "whitebait",
       s2l "haddock", s2l "pollock", s2l "mackerel", s2l "tilapia"],
      [s2l "fish oil", s2l "fish sauce", s2l "fish stock", s2l "fish protein"],
      [s2l "shellfish"]⟩,
    ⟨"SHELLFISH",
      [s2l "shrimp", s2l "shrimps", s2l "prawn", s2l "prawns", s2l "crab", s2l "crabs",
       s2l "lobster", s2l "lobsters", s2l "clam", s2l "clams", s2l "oyster",
       s2l "oysters", s2l "mussel", s2l "mussels", s2l "scallop", s2l "scallops",
       s2l "squid", s2l "octopus", s2l "calamari", s2l "crustacean", s2l "crustaceans"],
      [s2l "shellfish", s2l "mollusc", s2l "molluscs", s2l "mollusk", s2l "mollusks"],
      []⟩,
    ⟨"SESAME",
      [s2l "sesame", s2l "tahini", s2l "hummus", s2l "halvah"],
      [s2l "sesame seed", s2l "sesame seeds", s2l "sesame oil"],
      []⟩,
    ⟨"MUSTARD",
      [s2l "mustard", s2l "dijon"],
      [s2l "mustard seed", s2l "mustard seeds", s2l "mustard powder", s2l "mustard oil"],
      []⟩,
    ⟨"CELERY",
      [s2l "celery", s2l "celeriac"],
      [s2l "celery seed", s2l "celery seeds", s2l "celery salt", s2l "celery juice"],
      []⟩,
    ⟨"SULPHITES",
      [s2l "sulphite", s2l "sulphites", s2l "sulfite", s2l "sulfites",
       s2l "sulphur dioxide", s2l "sulfur dioxide", s2l "e220", s2l "e221", s2l "e222"],
      [],
      []⟩,
    ⟨"LUPIN",
      [s2l "lupin", s2l "lupine"],
      [s2l "lupin flour", s2l "lupin seed", s2l "lupin seeds"],
      []⟩ ]

def classNames : List String := allergenClasses.map AClass.name

/-- Characters of `[\s-]` in the cross-contamination pattern. -/
def isWsDash (c : Char) : Bool := isWs c || c = '-'

/-- The `MAY_CONTAIN_PATTERNS`, compiled as one alternation; every alternative
begins with `\b`. -/
def mayContainPats : List (List RTok) :=
  [ [RTok.lit (s2l "may"), RTok.more isWs, RTok.lit (s2l "contain"), RTok.eow],
    [RTok.lit (s2l "contains"), RTok.more isWs, RTok.lit (s2l "trace")],
    [RTok.lit (s2l "trace"), RTok.opt 's', RTok.more isWs, RTok.lit (s2l "of"), RTok.eow],
    [RTok.lit (s2l "cross"), RTok.one isWsDash, RTok.lit (s2l "contaminat")],
    [RTok.lit (s2l "may"), RTok.more isWs, RTok.lit (s2l "contain"), RTok.more isWs,
     RTok.lit (s2l "trace")],
    [RTok.lit (s2l "produced"), RTok.more isWs, RTok.lit (s2l "in"), RTok.more isWs,
     RTok.lit (s2l "a"), RTok.more isWs, RTok.lit (s2l "facility")],
    [RTok.lit (s2l "processed"), RTok.more isWs, RTok.lit (s2l "with")],
    [RTok.lit (s2l "shared"), RTok.more isWs, RTok.lit (s2l "equipment")],
    [RTok.lit (s2l "equipment"), RTok.more isWs, RTok.anyStar, RTok.lit (s2l "allergen")] ]

/-- The `non_ingredient_markers` used to trim the may-contain section. -/
def nonIngredientMarkers : List Str :=
  [ s2l "store in", s2l "store at", s2l "storage", s2l "best before", s2l "best by",
    s2l "use by", s2l "expiry", s2l "batch", s2l "lot", s2l "manufactured",
    s2l "packed on", s2l "keep refrigerated", s2l "keep frozen", s2l "refrigerate",
    s2l "freeze" ]

/-- The `StrictAllergenDetector._split_sections`. -/
def splitSections (txt : Str) : Str × Str :=
  let low := lowerL txt
  match patSearch mayContainPats low with
  | none => (txt, [])
  | some p =>
    let mc := txt.drop p
    let mcLow := lowerL mc
    let earliest := nonIngredientMarkers.foldl
      (fun acc m =>
        match strFind m mcLow with
        | some q => if q < acc then q else acc
        | none => acc)
      mc.length
    (txt.take p, if earliest < mc.length then stripWs (mc.take earliest) else mc)

/-- The `instruction_keywords` of `_detect_in_section`. -/
def instructionKws : List Str :=
  [ s2l "storage", s2l "instructions", s2l "keep away from", s2l "avoid contact",
    s2l "separate from", s2l "do not store", s2l "store in", s2l "store at",
    s2l "best before", s2l "best by", s2l "use by", s2l "expiry", s2l "expires",
    s2l "batch", s2l "lot", s2l "manufactured", s2l "packed on", s2l "production date",
    s2l "cool place", s2l "dry place", s2l "room temperature", s2l "refrigerate",
    s2l "freeze", s2l "once opened", s2l "after opening", s2l "keep refrigerated",
    s2l "keep frozen", s2l "consume within", s2l "shelf life" ]

def ingredientLangs : List Str :=
  [ s2l "ingredient", s2l "contain", s2l "made with", s2l "include" ]

/-- The `re.sub(r'[,;:]+', ' ', .)` then `re.sub(r'\s+', ' ', .).strip()`. -/
def normSection (low : Str) : Str :=
  stripWs (collapseWs (low.map (fun c => if c = ',' || c = ';' || c = ':' then ' ' else c)))

/-- The `non_ingredient_phrases` of `_is_false_positive`. -/
def nonIngredientPhrases : List Str :=
  [ s2l "store in", s2l "store at", s2l "storage", s2l "cool place", s2l "dry place",
    s2l "best before", s2l "best by", s2l "use by", s2l "expiry", s2l "expires",
    s2l "batch", s2l "lot", s2l "manufactured", s2l "packed on", s2l "production",
    s2l "room temperature", s2l "refrigerate", s2l "freeze", s2l "keep refrigerated",
    s2l "keep frozen", s2l "once opened", s2l "after opening", s2l "consume within" ]

/-- The `false_positive_compounds[kw]` (empty when `kw` is not a key). -/
def fpCompounds (kw : Str) : List Str :=
  if kw = s2l "shellfish" then
    [ s2l "pistachio", s2l "walnut", s2l "almond", s2l "hazelnut", s2l "peanut",
      s2l "oyster shell", s2l "clam shell", s2l "scallop shell",
      s2l "eggshell", s2l "seashell", s2l "nutshell", s2l "bombshell",
      s2l "w/out shell", s2l "without shell", s2l "with shell" ]
  else if kw = s2l "shell" then
    [ s2l "eggshell", s2l "seashell", s2l "nutshell", s2l "bombshell",
      s2l "oyster shell", s2l "walnut", s2l "pistachio", s2l "almond", s2l "hazelnut",
      s2l "w/out", s2l "without", s2l "with" ]
  else if kw = s2l "nut" then
    [ s2l "coconut", s2l "donut", s2l "doughnut", s2l "chestnut" ]
  else if kw = s2l "milk" then
    [ s2l "almond milk", s2l "soy milk", s2l "coconut milk", s2l "oat milk",
      s2l "rice milk" ]
  else if kw = s2l "butter" then
    [ s2l "nut butter", s2l "peanut butter", s2l "almond butter", s2l "cashew butter",
      s2l "cocoa butter", s2l "shea butter", s2l "mango butter" ]
  else []

def closeNegations : List Str :=
  [ s2l "free", s2l "substitute", s2l "free formula", s2l "alternative" ]

/-- Python slice `t[a:b]` for already-clamped natural bounds. -/
def sliceN (t : Str) (a b : Nat) : Str := (t.take b).drop a

/-- The special `cod` loop of `_is_false_positive`: for every word of the
context containing "cod", flag if the next word is place-like or the
previous word is storage-like. -/
def codCheckAux : List Str → Option Str → Bool
  | [], _ => false
  | w :: ws, prev =>
    (subIn (s2l "cod") w &&
      ((match ws with
        | nxt :: _ =>
          [s2l "place", s2l "places", s2l "placement", s2l "dry", s2l "cool"].contains nxt
        | [] => false) ||
       (match prev with
        | some pw => [s2l "store", s2l "stored", s2l "keep", s2l "storage"].contains pw
        | none => false))) ||
    codCheckAux ws (some w)

def codCheck (context : Str) : Bool := codCheckAux (splitWs context) none

/-- The `StrictAllergenDetector._is_false_positive` (the text searched is the
normalised section text; `ms`/`me` are the match bounds). -/
def isFalsePositive (kw t : Str) (ms me : Nat) : Bool :=
  let cs := ms - 50
  let context := lowerL (sliceN t cs (min t.length (me + 50)))
  if nonIngredientPhrases.any (fun p => subIn p context) then true
  else if kw = s2l "cod" && codCheck context then true
  else if (fpCompounds kw).any (fun p => subIn p context) then true
  else if (kw = s2l "milk" || kw = s2l "dairy") && subIn (s2l "substitute") context then
    true
  else if kw = s2l "almond" then false
  else
    let textAfter := lowerL (sliceN t me (min t.length (me + 40)))
    if closeNegations.any (fun n => subIn n textAfter) then true
    else
      let wordsBefore := splitWs (lowerL (context.take (ms - cs)))
      decide (0 < wordsBefore.length) &&
        (wordsBefore.drop (wordsBefore.length - 2)).any
          (fun w => [s2l "no", s2l "not", s2l "may", s2l "be", s2l "free"].contains w) &&
        (subIn (s2l "free") textAfter || subIn (s2l "substitute") textAfter)

def lowerName (n : String) : Str := lowerL (s2l n)

/-- The six `negation_patterns` of `_calculate_confidence`, built from the
lower-cased allergen class name. -/
def negPatterns (a : Str) : List (List RTok) :=
  [ [RTok.lit (s2l "no"), RTok.more isWs, RTok.lit a],
    [RTok.lit (s2l "free"), RTok.more isWs, RTok.lit (s2l "from"), RTok.more isWs,
     RTok.lit a],
    [RTok.lit a, RTok.more isWs, RTok.lit (s2l "free"), RTok.eow],
    [RTok.lit (s2l "without"), RTok.more isWs, RTok.lit a],
    [RTok.lit (s2l "does"), RTok.more isWs, RTok.lit (s2l "not"), RTok.more isWs,
     RTok.lit (s2l "contain"), RTok.more isWs, RTok.lit a],
    [RTok.lit (s2l "non"), RTok.one (fun c => c = '-' || c = ' '), RTok.lit a] ]

def ambiguousWords : List Str :=
  [ s2l "maybe", s2l "possibly", s2l "unclear", s2l "uncertain" ]

def explicitMarks : List Str :=
  [ s2l "contains", s2l "ingredients:", s2l "made with", s2l "includes" ]

/-- Python `round(q, 2)` (round-half-even), on rationals. -/
def roundTo2 (q : ℚ) : ℚ :=
  let n := Rat.floor (q * 100)
  let frac := q * 100 - mkRat n 1
  let r : ℤ :=
    if frac > 1 / 2 then n + 1
    else if frac < 1 / 2 then n
    else if n % 2 = 0 then n else n + 1
  mkRat r 100

/-- The `StrictAllergenDetector._calculate_confidence` (its `full_text`
parameter is unused by the body and is omitted). -/
def calcConfidence (name : String) (evidence : Str) (cat : ACat) : ℚ :=
  let base : ℚ := if cat = ACat.contains then 1 else 9 / 10
  let ev := lowerL evidence
  let an := lowerName name
  if (negPatterns an).any (fun p => (patSearch [p] ev).isSome) then 1 / 10
  else
    let b1 := ambiguousWords.foldl (fun b w => if subIn w ev then b * (1 / 2) else b) base
    let b2 := explicitMarks.foldl
      (fun b w => if subIn w ev then min 1 (b * (11 / 10)) else b) b1
    roundTo2 b2

/-- The acceptance gate `confidence >= 0.7` of `_detect_in_section`. -/
def acceptConfidence (c : ℚ) : Bool := decide ((7 : ℚ) / 10 ≤ c)

/-- Evidence extraction: re-find the keyword in the lower-cased section and
slice ±20 characters out of the original section text. -/
def evidenceOf (low orig kw : Str) : Str :=
  match wbFind kw low with
  | some j => stripWs (sliceN orig (j - 20) (min orig.length (j + kw.length + 20)))
  | none => []

/-- One keyword attempt of the `_detect_in_section` scan loop. -/
def tryKeyword (norm low orig : Str) (cat : ACat) (name : String) (kw : Str) :
    Option Finding :=
  match wbFind kw norm with
  | none => none
  | some i =>
    if isFalsePositive kw norm i (i + kw.length) then none
    else
      let ev := evidenceOf low orig kw
      let conf := calcConfidence name ev cat
      if acceptConfidence conf then some ⟨name, cat, ev, conf, kw⟩ else none

/-- The negative lookahead `(?!\s*oil|sauce|stock)` after `\bfish\b`. -/
def fishQualAfter (rest : Str) : Bool :=
  matchToks [RTok.many isWs, RTok.lit (s2l "oil")] rest ||
    subAt (s2l "sauce") rest || subAt (s2l "stock") rest

/-- The `re.search(r'\bfish\b(?!\s*oil|sauce|stock)', t)` succeeds. -/
def fishStandaloneNQAux : Option Char → Str → Bool
  | prev, t =>
    (bdryAt prev && wbHere (s2l "fish") t && !fishQualAfter (t.drop 4)) ||
      (match t with
       | [] => false
       | c :: cs => fishStandaloneNQAux (some c) cs)

def fishStandaloneNQ (t : Str) : Bool := fishStandaloneNQAux none t

/-- The FISH keyword list with the run-time `fish` entry appended when the
detector state says it is currently present. -/
def effKeywords (s : Bool) (cls : AClass) : List Str :=
  if cls.name = "FISH" && s then cls.keywords ++ [s2l "fish"] else cls.keywords

/-- First keyword (in list order) producing a finding; the scan loop breaks
at the first accepted keyword of a class. -/
def firstSome {α β : Type} : List α → (α → Option β) → Option β
  | [], _ => none
  | k :: ks, g =>
    match g k with
    | some f => some f
    | none => firstSome ks g

/-- Per-class body of the `_detect_in_section` loop: exclusion pre-check
(the FISH/shellfish special case), then the keyword/product scan. -/
def scanClass (s : Bool) (norm low orig : Str) (cat : ACat) (cls : AClass) :
    Option Finding :=
  if cls.exclusions.any (fun ex =>
      subIn ex norm &&
        (cls.name = "FISH" &&
          ((wbFind (s2l "shellfish") norm).isSome && !fishStandaloneNQ norm))) then none
  else firstSome (effKeywords s cls ++ cls.products) (tryKeyword norm low orig cat cls.name)

/-- The final de-duplication dictionary: keyed by allergen name, an entry is
replaced in place when a later finding has strictly higher confidence. -/
def upsert (acc : List Finding) (f : Finding) : List Finding :=
  if acc.any (fun g => g.name == f.name) then
    acc.map (fun g => if g.name = f.name ∧ g.confidence < f.confidence then f else g)
  else acc ++ [f]

def dedupKeep (l : List Finding) : List Finding := l.foldl upsert []

/-- The fish-keyword state update performed at lines 269-285 of the source:
with a standalone "fish" present, the bare keyword is added unless
"shellfish" is also present, in which case it is removed; otherwise the
shared list is untouched. -/
def sectionFishState (s : Bool) (txt : Str) : Bool :=
  if (wbFind (s2l "fish") (normSection (lowerL txt))).isSome
  then !(wbFind (s2l "shellfish") (normSection (lowerL txt))).isSome
  else s

/-- The `StrictAllergenDetector._detect_in_section`, returning the findings and
the FISH keyword-list state after the call. -/
def detectInSection (s : Bool) (txt : Str) (cat : ACat) : List Finding × Bool :=
  if stripWs txt = [] then ([], s)
  else if instructionKws.any (fun k => subIn k (normSection (lowerL txt))) &&
      decide (cat = ACat.contains) &&
      !(ingredientLangs.any (fun k => subIn k (normSection (lowerL txt)))) then ([], s)
  else
    (dedupKeep (allergenClasses.filterMap
        (scanClass (sectionFishState s txt) (normSection (lowerL txt)) (lowerL txt) txt cat)),
      sectionFishState s txt)

/-- The detection report of `StrictAllergenDetector.detect`. -/
structure Report where
  contains : List Finding
  mayContain : List Finding
  notDetected : List Finding
deriving DecidableEq, Repr

def mkNotDetected (n : String) : Finding := ⟨n, ACat.notDetected, [], 0, []⟩

/-- The `StrictAllergenDetector._empty_result`. -/
def emptyReport : Report := ⟨[], [], classNames.map mkNotDetected⟩

def notDetectedOf (fs : List Finding) : List Finding :=
  (classNames.filter (fun n => !((fs.map Finding.name).contains n))).map mkNotDetected

/-- The `StrictAllergenDetector.detect`, threading the shared FISH keyword-list
state through the two section scans. -/
def detect (s : Bool) (txt : Str) : Report × Bool :=
  if txt = [] || decide ((stripWs txt).length < 3) then (emptyReport, s)
  else
    let secs := splitSections txt
    let r1 := detectInSection s secs.1 ACat.contains
    let r2 := detectInSection r1.2 secs.2 ACat.mayContain
    (⟨r1.1, r2.1, notDetectedOf (r1.1 ++ r2.1)⟩, r2.2)

def cNames (r : Report) : List String := r.contains.map Finding.name
def mNames (r : Report) : List String := r.mayContain.map Finding.name
def nNames (r : Report) : List String := r.notDetected.map Finding.name

/-! ### scripts/allergen_detection_pipeline.py — the evidence merge

The NER models are external signals; their outputs (per-class lists of
spans with confidences) are inputs of the merge, exactly as in
`AllergenDetectionPipeline.detect_allergens` lines 206-241. -/

/-- One merged entry of `all_allergens`.  The Python code stores contexts in
a set; membership is what matters, the model keeps first occurrences. -/
structure MEntry where
  sources : List String
  contexts : List Str
  confidence : ℚ
deriving DecidableEq, Repr

/-- One NER detection (span text and confidence). -/
structure NDet where
  span : Str
  conf : ℚ
deriving DecidableEq, Repr

/-- The `allergen_keyword_map` of `detect_allergens`. -/
def pipelineKwMap (a : String) : Option (List Str) :=
  if a = "PEANUT" then some [s2l "peanut", s2l "groundnut", s2l "arachis"]
  else if a = "TREE_NUT" then some
    [s2l "almond", s2l "walnut", s2l "cashew", s2l "hazelnut", s2l "pecan",
     s2l "pistachio", s2l "brazil nut", s2l "macadamia", s2l "coconut", s2l "nut"]
  else if a = "MILK" then some
    [s2l "milk", s2l "dairy", s2l "lactose", s2l "casein", s2l "whey", s2l "cream",
     s2l "butter", s2l "cheese", s2l "yogurt"]
  else if a = "GLUTEN" then some
    [s2l "gluten", s2l "wheat", s2l "barley", s2l "rye", s2l "cereal", s2l "flour",
     s2l "bread", s2l "pasta", s2l "noodle", s2l "oat"]
  else if a = "SESAME" then some [s2l "sesame", s2l "tahini", s2l "hummus"]
  else if a = "SOY" then some [s2l "soy", s2l "soya", s2l "soybean"]
  else if a = "FISH" then some
    [s2l "fish", s2l "anchovy", s2l "salmon", s2l "tuna", s2l "cod"]
  else if a = "SHELLFISH" then some
    [s2l "shellfish", s2l "shrimp", s2l "prawn", s2l "crab", s2l "lobster",
     s2l "clam", s2l "oyster", s2l "mussel", s2l "scallop"]
  else if a = "EGG" then some [s2l "egg", s2l "albumen", s2l "mayonnaise"]
  else if a = "MUSTARD" then some [s2l "mustard", s2l "dijon"]
  else if a = "SULPHITES" then some
    [s2l "sulphite", s2l "sulfite", s2l "so2", s2l "preservative"]
  else if a = "CELERY" then some [s2l "celery", s2l "celeriac"]
  else if a = "LUPIN" then some [s2l "lupin"]
  else none

/-- Duplicate-free context union, keeping first occurrences. -/
def dedupFirst (l : List Str) : List Str :=
  l.foldl (fun acc c => if acc.contains c then acc else acc ++ [c]) []

/-- The `add_allergen` closure: append the source, union the contexts and
keep the maximum confidence (initialising a fresh entry if absent). -/
def addAllergen (st : List (String × MEntry)) (src : String) (a : String)
    (ctxs : List Str) (conf : ℚ) : List (String × MEntry) :=
  if st.any (fun p => p.1 == a) then
    st.map (fun p =>
      if p.1 = a then
        (a, ⟨p.2.sources ++ [src], dedupFirst (p.2.contexts ++ ctxs),
             max p.2.confidence conf⟩)
      else p)
  else st ++ [(a, ⟨[src], dedupFirst ctxs, conf⟩)]

/-- The `np.mean` of the detection confidences (`0.0` for an empty list). -/
def avgConf (l : List NDet) : ℚ :=
  if l = [] then 0 else (l.map NDet.conf).sum / nq l.length

/-- The corroboration filter on a recognizer class: kept iff the class has
no keyword vocabulary, or some keyword occurs literally in the cleaned
text, or the dictionary stage found the class. -/
def nerKeeps (text : Str) (dictNames : List String) (a : String) : Bool :=
  match pipelineKwMap a with
  | some ks => ks.any (fun k => subIn k text) || dictNames.contains a
  | none => true

def addNerList (src : String) (text : Str) (dictNames : List String)
    (st : List (String × MEntry)) (l : List (String × List NDet)) :
    List (String × MEntry) :=
  l.foldl
    (fun st2 p =>
      if nerKeeps text dictNames p.1 then
        addAllergen st2 src p.1 (p.2.map NDet.span) (avgConf p.2)
      else st2)
    st

/-- The merge of `detect_allergens`: dictionary findings first (confidence
1.0), then the baseline and robust recognizer findings, each filtered by
the corroboration rule. -/
def mergeDetections (text : Str) (dictA : List (String × List Str))
    (nerB nerR : List (String × List NDet)) : List (String × MEntry) :=
  let dictNames := dictA.map Prod.fst
  let st0 := dictA.foldl (fun st p => addAllergen st "dictionary" p.1 p.2 1) []
  let st1 := addNerList "baseline_ner" text dictNames st0 nerB
  addNerList "robust_ner" text dictNames st1 nerR

def mergedNames (st : List (String × MEntry)) : List String := st.map Prod.fst

/-! ### scripts/ocr_text_cleaner.py — `_compute_context_confidence` -/

/-- Python index normalisation for slices: negative indices count from the
end, then the index is clamped to `[0, len]`. -/
def pyIdx (len : Nat) (x : ℤ) : Nat :=
  let y := if x < 0 then x + Int.ofNat len else x
  if y < 0 then 0 else min len y.toNat

/-- Python slice `t[a:b]` for arbitrary integer bounds. -/
def pySlice (t : Str) (a b : ℤ) : Str :=
  (t.take (pyIdx t.length b)).drop (pyIdx t.length a)

def ingredientMarkers : List Str :=
  [ s2l "ingredients:", s2l "contains:", s2l "may contain", s2l "allergen",
    s2l "allergy", s2l "contains " ]

def foodWords : List Str :=
  [ s2l "oil", s2l "salt", s2l "sugar", s2l "flour", s2l "sauce", s2l "powder",
    s2l "extract", s2l "organic", s2l "natural", s2l "fresh", s2l "whole",
    s2l "grain", s2l "seed", s2l "water" ]

def nutritionTerms : List Str :=
  [ s2l "serving", s2l "per 100", s2l "energy", s2l "kilojoule", s2l "calorie",
    s2l "average", s2l "rdi", s2l "qty" ]

def metadataTerms : List Str :=
  [ s2l "information", s2l "nutrition facts", s2l "label", s2l "package" ]

def isGM (c : Char) : Bool := c = 'g' || c = 'm'
def isGL (c : Char) : Bool := c = 'g' || c = 'l'

/-- The `re.search(r'\d+\s*[gm][gl]?\b', s)` (the optional trailing unit letter
is expanded into two alternatives). -/
def numUnitPats : List (List RTok) :=
  [ [RTok.more Char.isDigit, RTok.many isWs, RTok.one isGM, RTok.one isGL, RTok.eow],
    [RTok.more Char.isDigit, RTok.many isWs, RTok.one isGM, RTok.eow] ]

def numUnitSearch (s : Str) : Bool := patSearchNB numUnitPats s

def clamp01 (q : ℚ) : ℚ := max 0 (min 1 q)

/-- The signal accumulation of `_compute_context_confidence`, before the
final clamp. -/
def rawContextScore (text : Str) (pos : ℤ) (kw : Str) : ℚ :=
  let context := lowerL (pySlice text (max 0 (pos - 100))
    (min (Int.ofNat text.length) (pos + Int.ofNat kw.length + 100)))
  let hasMarker := ingredientMarkers.any (fun m => subIn m context)
  let s1 : ℚ := 1 / 2 + (if hasMarker then 3 / 5 else 0)
  let fc := (foodWords.filter (fun w => subIn w context)).length
  let s2 := s1 + min (3 / 10) (nq fc * (2 / 25))
  let nc := (nutritionTerms.filter (fun w => subIn w context)).length
  let s3 := if 0 < nc ∧ hasMarker = false then s2 - min (2 / 5) (nq nc * (3 / 20))
            else s2
  let s4 := if metadataTerms.any (fun w => subIn w context) && !hasMarker then s3 - 3 / 10
            else s3
  let s5 :=
    match strFind kw context with
    | some p =>
      let ib := sliceN context (p - 3) p
      let ia := sliceN context (p + kw.length) (min context.length (p + kw.length + 3))
      if numUnitSearch (ib ++ ia) then s4 - 3 / 10 else s4
    | none => s4
  let s6 :=
    if (patSearch [[RTok.lit kw, RTok.eow, RTok.many isWs, RTok.lit [':']]] context).isSome
    then s5 - 2 / 5 else s5
  if context.contains ',' || context.contains '(' || context.contains ')' then s6 + 1 / 5
  else s6

/-- The `_compute_context_confidence`: the raw score clamped to `[0, 1]`.  The
function is total: any integer offset is handled by the Python slice
semantics embedded in `pySlice`. -/
def computeContextConfidence (text : Str) (pos : ℤ) (kw : Str) : ℚ :=
  clamp01 (rawContextScore text pos kw)

/-! ## Theorems -/

theorem contains_eq_false_iff {α : Type} [BEq α] [LawfulBEq α] (l : List α) (a : α) :
    (l.contains a = false) ↔ a ∉ l := by
  rw [← Bool.not_eq_true]
  exact not_congr List.elem_iff

/-- C10: the context scorer is total — it is a function defined for every
text, every integer match offset (out-of-range offsets are resolved by the
embedded Python slice semantics) and every keyword — and its result always
lies in the closed interval `[0, 1]`. -/
theorem claim10_context_scorer_total_and_clamped :
    ∀ (text : Str) (pos : ℤ) (kw : Str),
      0 ≤ computeContextConfidence text pos kw ∧
        computeContextConfidence text pos kw ≤ 1 := by
  intro text pos kw
  refine ⟨le_max_left _ _, max_le (by norm_num) (min_le_left _ _)⟩

/-- C5: `detect "Contains shellfish"` puts SHELLFISH in `contains` and FISH
in `not_detected`, while `detect "Contains fish oil"` puts FISH in
`contains` even though "shellfish" is absent. -/
theorem claim5_fish_shellfish_exclusion :
    "SHELLFISH" ∈ cNames (detect false (s2l "Contains shellfish")).1 ∧
      "FISH" ∉ cNames (detect false (s2l "Contains shellfish")).1 ∧
      "FISH" ∈ nNames (detect false (s2l "Contains shellfish")).1 ∧
      "FISH" ∈ cNames (detect false (s2l "Contains fish oil")).1 :=
  of_decide_eq_true (by with_unfolding_all rfl)

/-- C7 counterexample: "tree nut" is canonical lowercase ASCII text (it is
itself one of the canonical allergen terms of the fuzzy matcher), yet
`clean` is not idempotent on it: `clean "tree nut" = "tree nut nut"` and a
second pass appends yet another "nut". -/
theorem claim7_counterexample :
    clean (clean (s2l "tree nut")) ≠ clean (s2l "tree nut") :=
  of_decide_eq_true (by with_unfolding_all rfl)

/-- C7 amended: normalisation is idempotent on canonical lowercase ASCII
text whose tokens are untouched by the substitution table and the fuzzy
matcher — e.g. "contains peanut milk" is a fixed point of `clean` — but not
on all canonical lowercase ASCII text (see the counterexample). -/
theorem claim7_amended_fixed_point :
    clean (s2l "contains peanut milk") = s2l "contains peanut milk" ∧
      clean (clean (s2l "contains peanut milk")) = clean (s2l "contains peanut milk") :=
  of_decide_eq_true (by with_unfolding_all rfl)

theorem mem_names_addAllergen (st : List (String × MEntry)) (src a : String)
    (ctxs : List Str) (conf : ℚ) (n : String) :
    n ∈ mergedNames (addAllergen st src a ctxs conf) ↔ n ∈ mergedNames st ∨ n = a := by
  unfold addAllergen
  cases hany : st.any (fun p => p.1 == a) with
  | true =>
    simp only [if_true]
    have hnames : mergedNames (st.map fun p =>
        if p.1 = a then
          (a, ⟨p.2.sources ++ [src], dedupFirst (p.2.contexts ++ ctxs),
            max p.2.confidence conf⟩)
        else p) = mergedNames st := by
      unfold mergedNames
      rw [List.map_map]
      refine List.map_congr_left fun p _ => ?_
      simp only [Function.comp_apply]
      split
      · next hc => exact hc.symm
      · rfl
    rw [hnames]
    have ha : a ∈ mergedNames st := by
      obtain ⟨p, hp, hpa⟩ := List.any_eq_true.1 hany
      exact List.mem_map.2 ⟨p, hp, by simpa using hpa⟩
    constructor
    · exact Or.inl
    · rintro (h2 | rfl)
      · exact h2
      · exact ha
  | false =>
    simp only [Bool.false_eq_true, if_false]
    unfold mergedNames
    rw [List.map_append]
    simp

theorem dict_fold_names (l : List (String × List Str)) :
    ∀ (st : List (String × MEntry)) (n : String),
      n ∈ mergedNames (l.foldl (fun st2 p => addAllergen st2 "dictionary" p.1 p.2 1) st) ↔
        n ∈ mergedNames st ∨ n ∈ l.map Prod.fst := by
  induction l with
  | nil => intro st n; simp
  | cons p ps ih =>
    intro st n
    simp only [List.foldl_cons, ih, mem_names_addAllergen, List.map_cons, List.mem_cons]
    tauto

theorem ner_fold_names (src : String) (text : Str) (dictNames : List String)
    (l : List (String × List NDet)) :
    ∀ (st : List (String × MEntry)) (n : String),
      n ∈ mergedNames (addNerList src text dictNames st l) ↔
        n ∈ mergedNames st ∨
          (n ∈ l.map Prod.fst ∧ nerKeeps text dictNames n = true) := by
  induction l with
  | nil => intro st n; simp [addNerList]
  | cons p ps ih =>
    intro st n
    have hstep : addNerList src text dictNames st (p :: ps) =
        addNerList src text dictNames
          (if nerKeeps text dictNames p.1 then
            addAllergen st src p.1 (p.2.map NDet.span) (avgConf p.2) else st) ps := rfl
    rw [hstep, ih]
    by_cases hk : nerKeeps text dictNames p.1 = true
    case pos =>
      rw [if_pos hk, mem_names_addAllergen]
      constructor
      · rintro ((h | rfl) | ⟨h1, h2⟩)
        · exact Or.inl h
        · exact Or.inr ⟨by rw [List.map_cons]; exact List.mem_cons_self _ _, hk⟩
        · exact Or.inr ⟨by rw [List.map_cons]; exact List.mem_cons.2 (Or.inr h1), h2⟩
      · rintro (h | ⟨h1, h2⟩)
        · exact Or.inl (Or.inl h)
        · rw [List.map_cons, List.mem_cons] at h1
          rcases h1 with h3 | h3
          · exact Or.inl (Or.inr h3)
          · exact Or.inr ⟨h3, h2⟩
    case neg =>
      have hk2 : nerKeeps text dictNames p.1 = false := by
        rw [← Bool.not_eq_true]
        exact hk
      rw [if_neg hk]
      constructor
      · rintro (h | ⟨h1, h2⟩)
        · exact Or.inl h
        · exact Or.inr ⟨by rw [List.map_cons]; exact List.mem_cons.2 (Or.inr h1), h2⟩
      · rintro (h | ⟨h1, h2⟩)
        · exact Or.inl h
        · rw [List.map_cons, List.mem_cons] at h1
          rcases h1 with h3 | h3
          · rw [h3] at h2
            rw [h2] at hk2
            exact Bool.noConfusion hk2
          · exact Or.inr ⟨h3, h2⟩

theorem avgConf_single (sp : Str) (c : ℚ) : avgConf [⟨sp, c⟩] = c := by
  simp [avgConf, nq, Rat.mkRat_one]

/-- C3: in the evidence merge, a recognizer-only finding for a class with a
keyword vocabulary is discarded when no keyword of that class occurs in the
cleaned text and the dictionary stage found nothing for the class;
dictionary findings are never discarded; and when a class keyword such as
"tahini" does occur, the recognizer finding is retained with confidence
equal to the maximum over the contributing sources and with its sources and
evidence spans accumulated. -/
theorem claim3_merge_corroboration :
    (∀ (text : Str) (dictA : List (String × List Str))
        (nerB nerR : List (String × List NDet)) (A : String) (ks : List Str),
      pipelineKwMap A = some ks →
      (∀ k ∈ ks, subIn k text = false) →
      A ∉ dictA.map Prod.fst →
      A ∉ mergedNames (mergeDetections text dictA nerB nerR)) ∧
    (∀ (text : Str) (dictA : List (String × List Str))
        (nerB nerR : List (String × List NDet)) (A : String),
      A ∈ dictA.map Prod.fst →
      A ∈ mergedNames (mergeDetections text dictA nerB nerR)) ∧
    (∀ c : ℚ, ∃ e : MEntry,
      List.lookup "SESAME" (mergeDetections (s2l "ingredients: tahini")
        [("SESAME", [s2l "tahini paste"])] [("SESAME", [⟨s2l "tahini", c⟩])] []) =
          some e ∧
      e.confidence = max 1 c ∧ e.sources = ["dictionary", "baseline_ner"] ∧
      s2l "tahini" ∈ e.contexts ∧ s2l "tahini paste" ∈ e.contexts) := by
  refine ⟨?_, ?_, ?_⟩
  · intro text dictA nerB nerR A ks hks hsub hdict hmem
    have hkeeps : nerKeeps text (dictA.map Prod.fst) A = false := by
      have h1 : (ks.any fun k => subIn k text) = false :=
        List.any_eq_false.2 (fun k hk => by simp [hsub k hk])
      have h2 : (dictA.map Prod.fst).contains A = false := by
        rw [contains_eq_false_iff]
        exact hdict
      unfold nerKeeps
      rw [hks]
      show ((ks.any fun k => subIn k text) || (dictA.map Prod.fst).contains A) = false
      rw [h1, h2]
      rfl
    unfold mergeDetections at hmem
    rw [ner_fold_names, ner_fold_names, dict_fold_names] at hmem
    rcases hmem with ((h | h) | ⟨_, h⟩) | ⟨_, h⟩
    · simp [mergedNames] at h
    · exact hdict h
    · rw [hkeeps] at h; exact Bool.noConfusion h
    · rw [hkeeps] at h; exact Bool.noConfusion h
  · intro text dictA nerB nerR A hdict
    unfold mergeDetections
    rw [ner_fold_names, ner_fold_names, dict_fold_names]
    exact Or.inl (Or.inl (Or.inr hdict))
  · intro c
    refine ⟨⟨["dictionary", "baseline_ner"], [s2l "tahini paste", s2l "tahini"],
        max 1 (avgConf [⟨s2l "tahini", c⟩])⟩, ?_, ?_, rfl, by simp, by simp⟩
    · with_unfolding_all rfl
    · rw [avgConf_single]

/-- No word of length at most 8 can have similarity exactly 0.65 against a
nonempty term of length at most 10: `2M/T = 13/20` forces `40 ∣ T`, but
`T ≤ 18`.  Hence the source's strict `>` comparison against the 0.65
threshold accepts exactly the similarities that are at least 0.65. -/
theorem smScore_ne_threshold (a b : Str) (ha : a.length ≤ 8) (hb : b.length ≤ 10)
    (hbne : b ≠ []) : smScore a b ≠ 13 / 20 := by
  intro h
  have hbl : 0 < b.length := List.length_pos.2 hbne
  have hT : a.length + b.length ≠ 0 := by omega
  unfold smScore at h
  rw [if_neg hT, Rat.mkRat_eq_divInt, Rat.divInt_eq_div, Int.ofNat_eq_natCast] at h
  have hT0 : (((a.length + b.length : ℕ) : ℤ) : ℚ) ≠ 0 := by
    push_cast
    exact_mod_cast hT
  rw [div_eq_div_iff hT0 (by norm_num : (20 : ℚ) ≠ 0)] at h
  have hnat : 2 * rMatch (a.length + b.length) a b * 20 = 13 * (a.length + b.length) := by
    exact_mod_cast h
  have hdvd : 40 ∣ (a.length + b.length) * 13 :=
    ⟨rMatch (a.length + b.length) a b, by omega⟩
  have h40 : Nat.Coprime 40 13 := by decide
  have hdT : 40 ∣ a.length + b.length := h40.dvd_of_dvd_mul_right hdvd
  have := Nat.le_of_dvd (by omega) hdT
  omega

/-- Invariant of the best-match fold of `fuzzy_match_allergen`: the running
score never decreases, dominates the similarity of every processed term,
and the running best (when it moved) is a processed term realising the
running score. -/
theorem fuzzy_fold_inv (w : Str) :
    ∀ (l : List Str) (sc : ℚ) (bm : Option Str),
      sc ≤ (l.foldl (fuzzyStep w) (sc, bm)).1 ∧
      (∀ t ∈ l, smScore w t ≤ (l.foldl (fuzzyStep w) (sc, bm)).1) ∧
      (((l.foldl (fuzzyStep w) (sc, bm)).2 = bm ∧
          (l.foldl (fuzzyStep w) (sc, bm)).1 = sc) ∨
        ∃ b ∈ l, (l.foldl (fuzzyStep w) (sc, bm)).2 = some b ∧
          smScore w b = (l.foldl (fuzzyStep w) (sc, bm)).1) := by
  intro l
  induction l with
  | nil => intro sc bm; exact ⟨le_refl _, by simp, Or.inl ⟨rfl, rfl⟩⟩
  | cons t0 ts ih =>
    intro sc bm
    simp only [List.foldl_cons]
    have hstep : fuzzyStep w (sc, bm) t0 =
        if smScore w t0 > sc then (smScore w t0, some t0) else (sc, bm) := rfl
    rw [hstep]
    by_cases h0 : smScore w t0 > sc
    · rw [if_pos h0]
      obtain ⟨ih1, ih2, ih3⟩ := ih (smScore w t0) (some t0)
      refine ⟨le_trans (le_of_lt h0) ih1, ?_, ?_⟩
      · intro t ht
        rcases List.mem_cons.1 ht with rfl | ht2
        · exact ih1
        · exact ih2 t ht2
      · rcases ih3 with ⟨he, hsc⟩ | ⟨b, hb, he, hr⟩
        · exact Or.inr ⟨t0, List.mem_cons_self _ _, he, by rw [hsc]⟩
        · exact Or.inr ⟨b, List.mem_cons.2 (Or.inr hb), he, hr⟩
    · rw [if_neg h0]
      obtain ⟨ih1, ih2, ih3⟩ := ih sc bm
      refine ⟨ih1, ?_, ?_⟩
      · intro t ht
        rcases List.mem_cons.1 ht with rfl | ht2
        · exact le_trans (le_of_not_lt h0) ih1
        · exact ih2 t ht2
      · rcases ih3 with h | ⟨b, hb, he, hr⟩
        · exact Or.inl h
        · exact Or.inr ⟨b, List.mem_cons.2 (Or.inr hb), he, hr⟩

/-- C8: in clean's fuzzy stage, a token is handed to the fuzzy matcher
exactly when its length is between 4 and 8 with no digit; the fixed
exclusion list overrides fuzzy matching regardless of score; and every
eligible non-excluded token whose best similarity against the canonical
term list is at least 0.65 is replaced by a best-matching canonical term. -/
theorem claim8_fuzzy_token_rule :
    (∀ w : Str, (w.length < 4 ∨ 8 < w.length ∨ w.any Char.isDigit = true) →
      cleanToken w = w) ∧
    (∀ w : Str, lowerL w ∈ fuzzyExclusions → fuzzyMatchAllergen w = w) ∧
    (∀ w : Str, 4 ≤ w.length → w.length ≤ 8 → w.any Char.isDigit = false →
      lowerL w ∉ fuzzyExclusions →
      (∃ t ∈ fuzzyTerms, 13 / 20 ≤ smScore (lowerL w) t) →
      cleanToken w ∈ fuzzyTerms ∧
        ∀ t ∈ fuzzyTerms, smScore (lowerL w) t ≤ smScore (lowerL w) (cleanToken w)) := by
  refine ⟨?_, ?_, ?_⟩
  · intro w h
    unfold cleanToken
    have hc : (4 ≤ w.length && w.length ≤ 8 && !(w.any Char.isDigit)) = false := by
      rcases h with h | h | h
      · have h4 : ¬ (4 ≤ w.length) := by omega
        simp [h4]
      · have h8 : ¬ (w.length ≤ 8) := by omega
        simp [h8]
      · simp [h]
    rw [hc]
    simp
  · intro w h
    unfold fuzzyMatchAllergen
    rw [if_pos (List.elem_iff.2 h)]
  · intro w h4 h8 hd hex hexists
    obtain ⟨t0, ht0, hge⟩ := hexists
    have hcond : (4 ≤ w.length && w.length ≤ 8 && !(w.any Char.isDigit)) = true := by
      simp [h4, h8, hd]
    have hct : cleanToken w = fuzzyMatchAllergen w := by
      unfold cleanToken
      rw [hcond]
      simp
    rw [hct]
    unfold fuzzyMatchAllergen
    rw [if_neg (fun hc => hex (List.elem_iff.1 hc))]
    have hlen : (lowerL w).length ≤ 8 := by
      rw [lowerL, List.length_map]
      exact h8
    have hterm : ∀ t ∈ fuzzyTerms, t.length ≤ 10 ∧ t ≠ [] := by decide
    have hgt : 13 / 20 < smScore (lowerL w) t0 :=
      lt_of_le_of_ne hge
        (Ne.symm (smScore_ne_threshold _ _ hlen (hterm t0 ht0).1 (hterm t0 ht0).2))
    obtain ⟨i1, i2, i3⟩ := fuzzy_fold_inv (lowerL w) fuzzyTerms (13 / 20) none
    have hf1 : 13 / 20 < (fuzzyTerms.foldl (fuzzyStep (lowerL w)) (13 / 20, none)).1 :=
      lt_of_lt_of_le hgt (i2 t0 ht0)
    rcases i3 with ⟨he, hsc⟩ | ⟨b, hb, he, hr⟩
    · rw [hsc] at hf1
      exact absurd hf1 (lt_irrefl _)
    · rw [he]
      refine ⟨hb, fun t ht => ?_⟩
      show smScore (lowerL w) t ≤ smScore (lowerL w) b
      rw [hr]
      exact i2 t ht

/-- Witness for C8: the token "milks" is eligible, not excluded, reaches
similarity 8/9 against "milk", and is indeed replaced by a best-matching
canonical term. -/
theorem claim8_fuzzy_token_rule_witness :
    cleanToken (s2l "milks") ∈ fuzzyTerms ∧
      ∀ t ∈ fuzzyTerms, smScore (lowerL (s2l "milks")) t ≤
        smScore (lowerL (s2l "milks")) (cleanToken (s2l "milks")) :=
  claim8_fuzzy_token_rule.2.2 (s2l "milks") (by decide) (by decide) (by decide)
    (by decide)
    ⟨s2l "milk", by decide, of_decide_eq_true (by with_unfolding_all rfl)⟩

/-- Witness for C3: an uncorroborated recognizer-only SESAME finding on
"plain rice" is dropped, while a dictionary SESAME finding always
survives the merge. -/
theorem claim3_merge_corroboration_witness :
    "SESAME" ∉ mergedNames (mergeDetections (s2l "plain rice") []
        [("SESAME", [⟨s2l "x", 1 / 2⟩])] []) ∧
      "SESAME" ∈ mergedNames (mergeDetections (s2l "rice")
        [("SESAME", [s2l "ctx"])] [] []) :=
  ⟨claim3_merge_corroboration.1 (s2l "plain rice") [] [("SESAME", [⟨s2l "x", 1 / 2⟩])] []
      "SESAME" [s2l "sesame", s2l "tahini", s2l "hummus"] rfl (by decide) (by simp),
    claim3_merge_corroboration.2.1 (s2l "rice") [("SESAME", [s2l "ctx"])] [] []
      "SESAME" (by simp)⟩

/-- C9 counterexample: `detect` does mutate shared state.  Starting from
the pristine configuration (no bare "fish" in the FISH keyword list,
modelled as `false`), a single call on "contains fish" leaves the shared
keyword list changed (state `true`). -/
theorem claim9_counterexample :
    (detect false (s2l "contains fish")).2 ≠ false := by
  decide

/-- C2 counterexample: the claimed universal suppression fails.  In
"almond free" the matched keyword "almond" is followed within 40 characters
by the close-negation word "free" (and the evidence window matches the
"X free" negation shape for the matched keyword), yet the detector emits a
CONTAINS finding for TREE_NUT: the close-negation check is bypassed for the
keyword "almond", and the confidence negation patterns are built from the
class name "tree_nut", not from the matched keyword. -/
theorem claim2_counterexample :
    "TREE_NUT" ∈ cNames (detect false (s2l "almond free")).1 ∧
      subIn (s2l "free") ((s2l "almond free").drop 6) = true :=
  of_decide_eq_true (by with_unfolding_all rfl)

/-- C2 amended: for the input "Free from peanuts", PEANUT lands in
`not_detected` and never in `contains` (the negation patterns are keyed on
the allergen class name, which for PEANUT matches "free from peanuts", so
the match is scored 0.1 and suppressed); the general suppression holds only
when the negation pattern is built from the class name, and the 40-character
close-negation rejection does not apply to the keyword "almond". -/
theorem claim2_amended_negation_suppression :
    "PEANUT" ∉ cNames (detect false (s2l "Free from peanuts")).1 ∧
      "PEANUT" ∈ nNames (detect false (s2l "Free from peanuts")).1 :=
  of_decide_eq_true (by with_unfolding_all rfl)

/-- C1 counterexample: the three buckets are not pairwise disjoint and a
class name can appear twice across them: on "milk. may contain milk" the
detector reports MILK both in `contains` and in `may_contain`. -/
theorem claim1_counterexample :
    "MILK" ∈ cNames (detect false (s2l "milk. may contain milk")).1 ∧
      "MILK" ∈ mNames (detect false (s2l "milk. may contain milk")).1 :=
  of_decide_eq_true (by with_unfolding_all rfl)

/-- First character of a pattern literal, used to show that no phrase or
fix pattern can fire on whitespace-only text. -/
def headNonWs (l : Str) : Bool :=
  match l with
  | [] => false
  | c :: _ => !isWs c

theorem lowerL_allWs (t : Str) (h : t.all isWs = true) : lowerL t = t := by
  induction t with
  | nil => rfl
  | cons c cs ih =>
    simp only [List.all_cons, Bool.and_eq_true] at h
    have hc : c.toLower = c := by
      have := h.1
      simp only [isWs, Bool.or_eq_true, decide_eq_true_eq] at this
      rcases this with ((rfl | rfl) | rfl) | rfl <;> decide
    simp [lowerL, hc]
    exact ih h.2

theorem matchLen_lit_headNonWs (l : Str) (r : List RTok) (hl : headNonWs l = true) :
    ∀ t : Str, t.all isWs = true → matchLen (RTok.lit l :: r) t = none := by
  intro t ht
  cases l with
  | nil => simp [headNonWs] at hl
  | cons c l2 =>
    simp only [headNonWs, Bool.not_eq_true'] at hl
    cases t with
    | nil => simp [matchLen, dropLit]
    | cons d ds =>
      have hd : isWs d = true := List.all_eq_true.1 ht d (by simp)
      have hcd : c ≠ d := fun he => by rw [he, hd] at hl; exact Bool.noConfusion hl
      simp [matchLen, dropLit, hcd]

theorem matchLen_wsAnd :
    ∀ t : Str, t.all isWs = true →
      matchLen [RTok.more isWs, RTok.lit (s2l "and"), RTok.more isWs] t = none := by
  intro t ht
  cases t with
  | nil => rfl
  | cons d ds =>
    have hd : isWs d = true := List.all_eq_true.1 ht d (by simp)
    have hds : ds.dropWhile isWs = [] := by
      rw [List.dropWhile_eq_nil_iff]
      intro x hx
      exact List.all_eq_true.1 ht x (by simp [hx])
    simp only [matchLen, hd, if_true, hds]
    rfl

theorem subAllAux_allWs (toks : List RTok) (repl : Str)
    (hnm : ∀ u : Str, u.all isWs = true → matchLen toks u = none) :
    ∀ (fuel : Nat) (t : Str), t.all isWs = true → subAllAux toks repl fuel t = t := by
  intro fuel
  induction fuel with
  | zero => intro t _; rfl
  | succ n ih =>
    intro t ht
    unfold subAllAux
    rw [hnm t ht]
    cases t with
    | nil => rfl
    | cons c cs =>
      simp only [List.all_cons, Bool.and_eq_true] at ht
      show c :: subAllAux toks repl n cs = c :: cs
      rw [ih cs ht.2]

theorem subAll_allWs (toks : List RTok) (repl t : Str)
    (hnm : ∀ u : Str, u.all isWs = true → matchLen toks u = none)
    (ht : t.all isWs = true) : subAll toks repl t = t :=
  subAllAux_allWs toks repl hnm t.length t ht

theorem fold_subAll_allWs (ps : List (List RTok × Str))
    (hps : ∀ pr ∈ ps, ∀ u : Str, u.all isWs = true → matchLen pr.1 u = none) :
    ∀ t : Str, t.all isWs = true →
      ps.foldl (fun s pr => subAll pr.1 pr.2 s) t = t := by
  induction ps with
  | nil => intro t _; rfl
  | cons p ps2 ih =>
    intro t ht
    simp only [List.foldl_cons]
    rw [subAll_allWs p.1 p.2 t (hps p (by simp)) ht]
    exact ih (fun pr hpr => hps pr (by simp [hpr])) t ht

theorem phrasePatterns_noWsMatch :
    ∀ pr ∈ phrasePatterns, ∀ u : Str, u.all isWs = true → matchLen pr.1 u = none := by
  intro pr hpr u hu
  simp only [phrasePatterns, List.mem_cons, List.not_mem_nil, or_false] at hpr
  rcases hpr with rfl | rfl | rfl | rfl | rfl | rfl | rfl | rfl
  · exact matchLen_lit_headNonWs _ _ (by decide) u hu
  · exact matchLen_lit_headNonWs _ _ (by decide) u hu
  · exact matchLen_lit_headNonWs _ _ (by decide) u hu
  · exact matchLen_lit_headNonWs _ _ (by decide) u hu
  · exact matchLen_lit_headNonWs _ _ (by decide) u hu
  · exact matchLen_lit_headNonWs _ _ (by decide) u hu
  · exact matchLen_wsAnd u hu
  · exact matchLen_lit_headNonWs _ _ (by decide) u hu

theorem wbSubAllAux_allWs (kw repl : Str) (hk : headNonWs kw = true) :
    ∀ (fuel : Nat) (prev : Option Char) (t : Str), t.all isWs = true →
      wbSubAllAux kw repl fuel prev t = t := by
  intro fuel
  induction fuel with
  | zero => intro prev t _; rfl
  | succ n ih =>
    intro prev t ht
    have hnm : wbHere kw t = false := by
      cases kw with
      | nil => simp [headNonWs] at hk
      | cons c l2 =>
        simp only [headNonWs, Bool.not_eq_true'] at hk
        cases t with
        | nil => simp [wbHere, subAt, dropLit]
        | cons d ds =>
          have hd : isWs d = true := List.all_eq_true.1 ht d (by simp)
          have hcd : c ≠ d := fun he => by rw [he, hd] at hk; exact Bool.noConfusion hk
          simp [wbHere, subAt, dropLit, hcd]
    unfold wbSubAllAux
    rw [hnm]
    simp only [Bool.and_false, Bool.false_eq_true, if_false]
    cases t with
    | nil => rfl
    | cons c cs =>
      simp only [List.all_cons, Bool.and_eq_true] at ht
      show c :: wbSubAllAux kw repl n (some c) cs = c :: cs
      rw [ih (some c) cs ht.2]

theorem wbSubAll_allWs (kw repl t : Str) (hk : headNonWs kw = true)
    (ht : t.all isWs = true) : wbSubAll kw repl t = t := by
  unfold wbSubAll
  have hne : kw ≠ [] := by
    cases kw
    · simp [headNonWs] at hk
    · simp
  rw [if_neg hne]
  exact wbSubAllAux_allWs kw repl hk t.length none t ht

theorem fold_wbSubAll_allWs (ps : List (Str × Str))
    (hps : ∀ pr ∈ ps, headNonWs pr.1 = true) :
    ∀ t : Str, t.all isWs = true →
      ps.foldl (fun s pr => wbSubAll pr.1 pr.2 s) t = t := by
  induction ps with
  | nil => intro t _; rfl
  | cons p ps2 ih =>
    intro t ht
    simp only [List.foldl_cons]
    rw [wbSubAll_allWs p.1 p.2 t (hps p (by simp)) ht]
    exact ih (fun pr hpr => hps pr (by simp [hpr])) t ht

theorem allergenFixes_headNonWs : ∀ pr ∈ allergenFixes, headNonWs pr.1 = true := by
  intro pr hpr
  have : allergenFixes.all (fun pr => headNonWs pr.1) = true := by decide
  exact List.all_eq_true.1 this pr hpr

theorem splitWs_allWs (t : Str) (h : t.all isWs = true) : splitWs t = [] := by
  suffices hs : t.foldr splitWsF ([], []) = ([], []) by
    unfold splitWs
    rw [hs]
    rfl
  induction t with
  | nil => rfl
  | cons c cs ih =>
    simp only [List.all_cons, Bool.and_eq_true] at h
    simp only [List.foldr_cons, ih h.2]
    unfold splitWsF
    simp [h.1]

theorem stripWs_allWs (t : Str) (h : t.all isWs = true) : stripWs t = [] := by
  unfold stripWs
  have h1 : t.dropWhile isWs = [] :=
    List.dropWhile_eq_nil_iff.2 (fun x hx => List.all_eq_true.1 h x hx)
  rw [h1]
  rfl

theorem clean_allWs (t : Str) (h : t.all isWs = true) : clean t = [] := by
  unfold clean
  by_cases h0 : t = []
  · rw [if_pos h0]
  · rw [if_neg h0, lowerL_allWs t h,
      fold_subAll_allWs phrasePatterns phrasePatterns_noWsMatch t h,
      fold_wbSubAll_allWs allergenFixes allergenFixes_headNonWs t h,
      splitWs_allWs t h]
    rfl

/-- C6: every empty or whitespace-only input yields the empty string from
`OCRTextCleaner.clean` and the all-NOT_DETECTED report from
`StrictAllergenDetector.detect` (from any detector state, which is left
unchanged); both operations are total functions, so neither raises. -/
theorem claim6_whitespace_degrades_gracefully :
    ∀ t : Str, t.all isWs = true →
      clean t = [] ∧ ∀ s : Bool, detect s t = (emptyReport, s) := by
  intro t ht
  refine ⟨clean_allWs t ht, fun s => ?_⟩
  unfold detect
  rw [if_pos ?_]
  rw [stripWs_allWs t ht]
  simp

/-- Witness for C6: the two-space input produces the empty cleaned string
and the empty report. -/
theorem claim6_whitespace_degrades_gracefully_witness :
    clean (s2l "  ") = [] ∧ detect false (s2l "  ") = (emptyReport, false) :=
  ⟨(claim6_whitespace_degrades_gracefully (s2l "  ")
      (of_decide_eq_true (by with_unfolding_all rfl))).1,
    (claim6_whitespace_degrades_gracefully (s2l "  ")
      (of_decide_eq_true (by with_unfolding_all rfl))).2 false⟩

/-- C4: a keyword match that survived the false-positive checks is emitted
as a Finding if and only if its computed confidence is at least 0.7, and
the acceptance boundary is inclusive: exactly 0.70 is accepted, 0.69 is
rejected. -/
theorem claim4_threshold_boundary :
    (∀ c : ℚ, acceptConfidence c = true ↔ (7 : ℚ) / 10 ≤ c) ∧
      acceptConfidence (70 / 100) = true ∧
      acceptConfidence (69 / 100) = false ∧
      (∀ (norm low orig : Str) (cat : ACat) (name : String) (kw : Str) (i : Nat),
        wbFind kw norm = some i →
        isFalsePositive kw norm i (i + kw.length) = false →
        ((tryKeyword norm low orig cat name kw).isSome = true ↔
          acceptConfidence (calcConfidence name (evidenceOf low orig kw) cat) = true)) := by
  refine ⟨fun c => by unfold acceptConfidence; exact decide_eq_true_iff,
    of_decide_eq_true (by with_unfolding_all rfl),
    of_decide_eq_true (by with_unfolding_all rfl), ?_⟩
  intro norm low orig cat name kw i hfind hfp
  simp only [tryKeyword, hfind, hfp]
  cases h : acceptConfidence (calcConfidence name (evidenceOf low orig kw) cat) <;>
    simp [h]

/-- Scanning a keyword list in which one keyword can never match is the
same as scanning the list without it. -/
theorem firstSome_middle_skip {α β : Type} (g : α → Option β) (k : α)
    (hk : g k = none) :
    ∀ l₁ l₂ : List α, firstSome (l₁ ++ k :: l₂) g = firstSome (l₁ ++ l₂) g := by
  intro l₁ l₂
  induction l₁ with
  | nil => simp [firstSome, hk]
  | cons a as ih =>
    simp only [List.cons_append, firstSome]
    cases g a <;> simp [ih]

/-- When the normalised section contains no standalone "fish", the
per-class scan does not depend on the shared FISH keyword-list state. -/
theorem scanClass_state_indep (norm low orig : Str) (cat : ACat) (cls : AClass)
    (h : wbFind (s2l "fish") norm = none) :
    ∀ s₁ s₂ : Bool, scanClass s₁ norm low orig cat cls = scanClass s₂ norm low orig cat cls := by
  have key : ∀ s : Bool, scanClass s norm low orig cat cls = scanClass false norm low orig cat cls := by
    intro s
    cases s with
    | false => rfl
    | true =>
      unfold scanClass effKeywords
      by_cases hn : cls.name = "FISH"
      · have hfish : tryKeyword norm low orig cat cls.name (s2l "fish") = none := by
          unfold tryKeyword
          rw [h]
        have hmid := firstSome_middle_skip (tryKeyword norm low orig cat cls.name)
          (s2l "fish") hfish cls.keywords cls.products
        rw [hn] at hmid
        simp only [hn, List.append_assoc, List.singleton_append] at hmid ⊢
        simp [hmid]
      · simp [hn]
  intro s₁ s₂
  rw [key s₁, key s₂]

/-- The findings of a section scan do not depend on the incoming FISH
keyword-list state. -/
theorem detectInSection_findings_state_indep (txt : Str) (cat : ACat) :
    ∀ s₁ s₂ : Bool, (detectInSection s₁ txt cat).1 = (detectInSection s₂ txt cat).1 := by
  intro s₁ s₂
  unfold detectInSection
  split
  · rfl
  · split
    · rfl
    · simp only
      cases hf : wbFind (s2l "fish") (normSection (lowerL txt)) with
      | some p =>
        have hs : ∀ s : Bool, sectionFishState s txt =
            !(wbFind (s2l "shellfish") (normSection (lowerL txt))).isSome := by
          intro s; unfold sectionFishState; rw [hf]; simp
        rw [hs s₁, hs s₂]
      | none =>
        have hs : ∀ s : Bool, sectionFishState s txt = s := by
          intro s; unfold sectionFishState; rw [hf]; simp
        rw [hs s₁, hs s₂]
        have := List.filterMap_congr (l := allergenClasses)
          (f := scanClass s₁ (normSection (lowerL txt)) (lowerL txt) txt cat)
          (g := scanClass s₂ (normSection (lowerL txt)) (lowerL txt) txt cat)
          (fun cls _ => scanClass_state_indep _ _ _ _ cls hf s₁ s₂)
        rw [this]

theorem firstSome_eq_some {α β : Type} (g : α → Option β) :
    ∀ (l : List α) (b : β), firstSome l g = some b → ∃ a ∈ l, g a = some b := by
  intro l b
  induction l with
  | nil => simp [firstSome]
  | cons a as ih =>
    intro h
    unfold firstSome at h
    cases hg : g a with
    | some c =>
      simp only [hg] at h
      exact ⟨a, by simp, hg.trans h⟩
    | none =>
      simp only [hg] at h
      obtain ⟨x, hx, hgx⟩ := ih h
      exact ⟨x, by simp [hx], hgx⟩

/-- A finding produced by a keyword attempt carries the class name it was
called with. -/
theorem tryKeyword_name (norm low orig : Str) (cat : ACat) (name : String) (kw : Str)
    (f : Finding) (h : tryKeyword norm low orig cat name kw = some f) : f.name = name := by
  unfold tryKeyword at h
  cases hf : wbFind kw norm with
  | none =>
    simp only [hf] at h
    exact Option.noConfusion h
  | some i =>
    simp only [hf] at h
    split at h
    · exact absurd h (by simp)
    · split at h
      · rw [← Option.some_inj.1 h]
      · exact absurd h (by simp)

/-- A finding produced by a class scan carries that class's name. -/
theorem scanClass_name (s : Bool) (norm low orig : Str) (cat : ACat) (cls : AClass)
    (f : Finding) (h : scanClass s norm low orig cat cls = some f) : f.name = cls.name := by
  unfold scanClass at h
  split at h
  · exact absurd h (by simp)
  · obtain ⟨k, _, hk⟩ := firstSome_eq_some _ _ _ h
    exact tryKeyword_name _ _ _ _ _ _ _ hk

/-- The de-duplication upsert either leaves the name list unchanged (a
replacement happens in place) or appends the new name at the end. -/
theorem upsert_names (acc : List Finding) (f : Finding) :
    (upsert acc f).map Finding.name =
      if f.name ∈ acc.map Finding.name then acc.map Finding.name
      else acc.map Finding.name ++ [f.name] := by
  unfold upsert
  by_cases h : f.name ∈ acc.map Finding.name
  · have hany : acc.any (fun g => g.name == f.name) = true := by
      obtain ⟨g, hg, hgn⟩ := List.mem_map.1 h
      exact List.any_eq_true.2 ⟨g, hg, by simp [hgn]⟩
    rw [if_pos h, hany]
    simp only [if_true, List.map_map]
    refine List.map_congr_left fun g _ => ?_
    simp only [Function.comp_apply]
    split
    · next hc => exact hc.1.symm
    · rfl
  · have hany : acc.any (fun g => g.name == f.name) = false := by
      rw [List.any_eq_false]
      intro g hg
      simp only [beq_iff_eq]
      intro hgn
      exact h (List.mem_map.2 ⟨g, hg, hgn⟩)
    rw [if_neg h, hany]
    simp

theorem foldl_upsert_nodup :
    ∀ (l acc : List Finding),
      (acc.map Finding.name).Nodup → ((l.foldl upsert acc).map Finding.name).Nodup := by
  intro l
  induction l with
  | nil => intro acc h; exact h
  | cons f fs ih =>
    intro acc h
    apply ih
    rw [upsert_names]
    by_cases hf : f.name ∈ acc.map Finding.name
    · rw [if_pos hf]; exact h
    · rw [if_neg hf]
      simp [List.nodup_append, h, hf]

theorem foldl_upsert_names_sub :
    ∀ (l acc : List Finding) (n : String),
      n ∈ (l.foldl upsert acc).map Finding.name →
      n ∈ acc.map Finding.name ∨ n ∈ l.map Finding.name := by
  intro l
  induction l with
  | nil => intro acc n h; exact Or.inl h
  | cons f fs ih =>
    intro acc n h
    rcases ih (upsert acc f) n h with h2 | h2
    · rw [upsert_names] at h2
      by_cases hf : f.name ∈ acc.map Finding.name
      · rw [if_pos hf] at h2; exact Or.inl h2
      · rw [if_neg hf] at h2
        rcases List.mem_append.1 h2 with h3 | h3
        · exact Or.inl h3
        · simp only [List.mem_singleton] at h3
          exact Or.inr (by simp [h3])
    · exact Or.inr (by simp [h2])

/-- Every name reported from a section scan is a configured class name. -/
theorem detectInSection_names_sub (s : Bool) (txt : Str) (cat : ACat) :
    ∀ n ∈ (detectInSection s txt cat).1.map Finding.name, n ∈ classNames := by
  intro n hn
  unfold detectInSection at hn
  split at hn
  · simp at hn
  · split at hn
    · simp at hn
    · simp only at hn
      rcases foldl_upsert_names_sub _ _ _ hn with h | h
      · simp at h
      · obtain ⟨f, hf, hfn⟩ := List.mem_map.1 h
        obtain ⟨cls, hcls, hsc⟩ := List.mem_filterMap.1 hf
        rw [← hfn, scanClass_name _ _ _ _ _ _ _ hsc]
        exact List.mem_map.2 ⟨cls, hcls, rfl⟩

/-- The names reported from a section scan are duplicate-free. -/
theorem detectInSection_names_nodup (s : Bool) (txt : Str) (cat : ACat) :
    ((detectInSection s txt cat).1.map Finding.name).Nodup := by
  unfold detectInSection
  split
  · simp
  · split
    · simp
    · exact foldl_upsert_nodup _ [] (by simp)

theorem classNames_nodup : classNames.Nodup :=
  of_decide_eq_true (by with_unfolding_all rfl)

theorem notDetectedOf_names (fs : List Finding) :
    (notDetectedOf fs).map Finding.name =
      classNames.filter (fun n => !((fs.map Finding.name).contains n)) := by
  unfold notDetectedOf
  rw [List.map_map, show Finding.name ∘ mkNotDetected = id from rfl, List.map_id]

theorem nNames_empty : nNames emptyReport = classNames := by
  unfold nNames emptyReport
  rw [List.map_map, show Finding.name ∘ mkNotDetected = id from rfl, List.map_id]

/-- Structure of a report assembled from two duplicate-free finding lists
whose names are configured class names, plus the complement bucket. -/
theorem report_core (c m : List Finding)
    (hc : ∀ n ∈ c.map Finding.name, n ∈ classNames)
    (hm : ∀ n ∈ m.map Finding.name, n ∈ classNames)
    (hcn : (c.map Finding.name).Nodup) (hmn : (m.map Finding.name).Nodup) :
    (∀ n, n ∈ classNames ↔
      (n ∈ c.map Finding.name ∨ n ∈ m.map Finding.name ∨
        n ∈ (notDetectedOf (c ++ m)).map Finding.name)) ∧
    (∀ n, n ∈ (notDetectedOf (c ++ m)).map Finding.name →
      n ∉ c.map Finding.name ∧ n ∉ m.map Finding.name) ∧
    (c.map Finding.name).Nodup ∧ (m.map Finding.name).Nodup ∧
    ((notDetectedOf (c ++ m)).map Finding.name).Nodup := by
  have hnd := notDetectedOf_names (c ++ m)
  refine ⟨fun n => ⟨fun hn => ?_, fun hn => ?_⟩, fun n h => ?_, hcn, hmn, ?_⟩
  · by_cases h1 : n ∈ c.map Finding.name
    · exact Or.inl h1
    by_cases h2 : n ∈ m.map Finding.name
    · exact Or.inr (Or.inl h2)
    refine Or.inr (Or.inr ?_)
    rw [hnd]
    refine List.mem_filter.2 ⟨hn, ?_⟩
    simp only [Bool.not_eq_true', List.map_append]
    rw [contains_eq_false_iff]
    simp only [List.mem_append]
    rintro (h | h)
    · exact h1 h
    · exact h2 h
  · rcases hn with h | h | h
    · exact hc n h
    · exact hm n h
    · rw [hnd] at h
      exact (List.mem_filter.1 h).1
  · rw [hnd] at h
    have h2 := (List.mem_filter.1 h).2
    simp only [Bool.not_eq_true', List.map_append] at h2
    rw [contains_eq_false_iff] at h2
    simp only [List.mem_append] at h2
    exact ⟨fun hx => h2 (Or.inl hx), fun hx => h2 (Or.inr hx)⟩
  · rw [hnd]
    exact classNames_nodup.filter _

/-- C1 amended: for every input and every detector state, each of the 13
class names appears in at least one bucket; `not_detected` is exactly the
set of classes absent from `contains` and `may_contain` (hence disjoint
from both), and each bucket lists a class at most once — but `contains`
and `may_contain` need not be disjoint from each other (see the
counterexample). -/
theorem claim1_amended_report_structure :
    ∀ (s : Bool) (t : Str),
      (∀ n, n ∈ classNames ↔
        (n ∈ cNames (detect s t).1 ∨ n ∈ mNames (detect s t).1 ∨
          n ∈ nNames (detect s t).1)) ∧
      (∀ n, n ∈ nNames (detect s t).1 →
        n ∉ cNames (detect s t).1 ∧ n ∉ mNames (detect s t).1) ∧
      (cNames (detect s t).1).Nodup ∧ (mNames (detect s t).1).Nodup ∧
      (nNames (detect s t).1).Nodup := by
  intro s t
  unfold detect
  split
  · refine ⟨fun n => ?_, fun n hn => ?_, ?_, ?_, ?_⟩
    · rw [show cNames ((emptyReport, s) : Report × Bool).1 = [] from rfl,
        show mNames ((emptyReport, s) : Report × Bool).1 = [] from rfl,
        show nNames ((emptyReport, s) : Report × Bool).1 = nNames emptyReport from rfl,
        nNames_empty]
      simp
    · refine ⟨by simp [cNames, emptyReport], by simp [mNames, emptyReport]⟩
    · simp [cNames, emptyReport]
    · simp [mNames, emptyReport]
    · rw [show nNames ((emptyReport, s) : Report × Bool).1 = nNames emptyReport from rfl,
        nNames_empty]
      exact classNames_nodup
  · exact report_core
      (detectInSection s (splitSections t).1 ACat.contains).1
      (detectInSection (detectInSection s (splitSections t).1 ACat.contains).2
        (splitSections t).2 ACat.mayContain).1
      (detectInSection_names_sub _ _ _) (detectInSection_names_sub _ _ _)
      (detectInSection_names_nodup _ _ _) (detectInSection_names_nodup _ _ _)

/-- Witness for C1's amended theorem: on the counterexample text, PEANUT is
a class name, it lands in `not_detected`, and is therefore reported in
neither of the other buckets. -/
theorem claim1_amended_report_structure_witness :
    "PEANUT" ∉ cNames (detect false (s2l "milk. may contain milk")).1 ∧
      "PEANUT" ∉ mNames (detect false (s2l "milk. may contain milk")).1 :=
  (claim1_amended_report_structure false (s2l "milk. may contain milk")).2.1 "PEANUT"
    (of_decide_eq_true (by with_unfolding_all rfl))

/-- C9 amended: `detect` is not free of shared-state mutation (see the
counterexample: it updates the shared FISH keyword list), but its reported
result is independent of that state: for every text, the report is the
same from any two states, so repeated calls on the same text return
identical reports regardless of interleaved calls on other texts. -/
theorem claim9_amended_result_state_independent :
    ∀ (s₁ s₂ : Bool) (t : Str), (detect s₁ t).1 = (detect s₂ t).1 := by
  intro s₁ s₂ t
  unfold detect
  split
  · rfl
  · have h1 := detectInSection_findings_state_indep (splitSections t).1 ACat.contains s₁ s₂
    have h2 := detectInSection_findings_state_indep (splitSections t).2 ACat.mayContain
      (detectInSection s₁ (splitSections t).1 ACat.contains).2
      (detectInSection s₂ (splitSections t).1 ACat.contains).2
    simp only [h1, h2]

/-- Witness for C4: the acceptance equivalence instantiated at the concrete
section "milk" with keyword "milk" (which matches at index 0 and is not a
false positive there), together with the accepted boundary value 0.70. -/
theorem claim4_threshold_boundary_witness :
    ((tryKeyword (s2l "milk") (s2l "milk") (s2l "milk") ACat.contains "MILK"
        (s2l "milk")).isSome = true ↔
      acceptConfidence (calcConfidence "MILK"
        (evidenceOf (s2l "milk") (s2l "milk") (s2l "milk")) ACat.contains) = true) ∧
      acceptConfidence (70 / 100) = true :=
  ⟨claim4_threshold_boundary.2.2.2 (s2l "milk") (s2l "milk") (s2l "milk")
      ACat.contains "MILK" (s2l "milk") 0
      (of_decide_eq_true (by with_unfolding_all rfl))
      (of_decide_eq_true (by with_unfolding_all rfl)),
    claim4_threshold_boundary.2.1⟩

end AllergenSpec




